import Mathlib

/-!
Verification development for the browser chat UI component.

The definitions below are a shallow embedding of the streaming message-state
reducer and worker-protocol orchestration of `src/lib/main.tsx`, together with
the byte-size formatting of `src/lib/Progress.tsx`.  React `useState` cells are
collected into one `AppState` record; the worker message handler
`onMessageReceived` becomes a state transformer; the generate-trigger
`useEffect` (dependencies `[messages, isRunning]`) is re-run exactly when one of
its dependencies changes, as React does; commands posted to the worker are
collected in a list.
-/

/-- Author role of a chat turn (the `role` field of the `ChatMessage` interface). -/
inductive Role
  | user
  | assistant
deriving DecidableEq, Repr

/-- One transcript turn (the `ChatMessage` interface of main.tsx).
`String.length` models JS `.length`; the two agree on the inputs considered
here (code points in the basic plane). -/
structure ChatMessage where
  role : Role
  content : String
  answerIndex : Option Nat
deriving DecidableEq, Repr

/-- Payload of a worker event (the `MessageData` interface of main.tsx); a JS
field that is `undefined` is `none`.  Numeric fields are modelled as rationals. -/
structure MessageData where
  status : Option String := none
  data : Option String := none
  file : Option String := none
  output : Option String := none
  tps : Option ℚ := none
  numTokens : Option ℚ := none
  state : Option String := none
  progress : Option ℚ := none
  total : Option ℚ := none
deriving DecidableEq, Repr

/-- The event tags dispatched by `switch (messageStatus)` in `onMessageReceived`. -/
inductive Status
  | loading
  | initiate
  | progress
  | done
  | ready
  | start
  | update
  | complete
  | error
  | unknown
deriving DecidableEq, Repr

/-- Dispatch of the raw `status` string, mirroring the `switch` cases of
`onMessageReceived`; any other value falls through the switch. -/
def parseStatus : Option String → Status
  | some "loading" => .loading
  | some "initiate" => .initiate
  | some "progress" => .progress
  | some "done" => .done
  | some "ready" => .ready
  | some "start" => .start
  | some "update" => .update
  | some "complete" => .complete
  | some "error" => .error
  | _ => .unknown

/-- The React state cells of `LlamaReasoningReactComponent` that the reducer
logic reads and writes. -/
structure AppState where
  status : Option String
  error : Option String
  loadingMessage : String
  progressItems : List MessageData
  isRunning : Bool
  input : String
  messages : List ChatMessage
  tps : Option ℚ
  numTokens : Option ℚ
deriving DecidableEq, Repr

/-- The initial values of the `useState` cells. -/
def initialState : AppState :=
  { status := none, error := none, loadingMessage := "", progressItems := [],
    isRunning := false, input := "", messages := [], tps := none, numTokens := none }

/-- Commands posted to the worker via `worker.current.postMessage`. -/
inductive Cmd
  | check
  | load
  | generate (data : List ChatMessage)
  | interrupt
  | reset
deriving DecidableEq, Repr

/-- The body of the `case "update"` branch acting on the last turn: append the
output fragment (`output ?? ""`) and, when `answerIndex` is still unset and the
worker reports `state === "answering"`, set `answerIndex` to the pre-append
content length. -/
def applyUpdateTurn (last : ChatMessage) (output state : Option String) : ChatMessage :=
  if last.answerIndex = none ∧ state = some "answering" then
    { role := last.role, content := last.content ++ output.getD "",
      answerIndex := some last.content.length }
  else
    { role := last.role, content := last.content ++ output.getD "",
      answerIndex := last.answerIndex }

/-- The `setMessages` updater of the `case "update"` branch: clone the array,
rewrite the last slot when one exists (`cloned.at(-1)`), keep everything else. -/
def applyUpdateToMessages (prev : List ChatMessage) (output state : Option String) :
    List ChatMessage :=
  match prev.getLast? with
  | none => prev
  | some last => prev.dropLast ++ [applyUpdateTurn last output state]

/-- The worker message handler `onMessageReceived` of main.tsx as a state
transformer over the collected React state. -/
def onMessageReceived (e : MessageData) (s : AppState) : AppState :=
  match parseStatus e.status with
  | .loading =>
      let s1 := { s with status := some "loading" }
      match e.data with
      | some d => { s1 with loadingMessage := d }
      | none => s1
  | .initiate => { s with progressItems := s.progressItems ++ [e] }
  | .progress =>
      { s with progressItems :=
          s.progressItems.map (fun item =>
            if item.file = e.file then
              { item with progress := e.progress, total := e.total }
            else item) }
  | .done =>
      { s with progressItems :=
          s.progressItems.filter (fun item => decide (item.file ≠ e.file)) }
  | .ready => { s with status := some "ready" }
  | .start =>
      { s with messages :=
          s.messages ++ [{ role := Role.assistant, content := "", answerIndex := none }] }
  | .update =>
      { s with tps := e.tps, numTokens := e.numTokens,
               messages := applyUpdateToMessages s.messages e.output e.state }
  | .complete => { s with isRunning := false }
  | .error =>
      match e.data with
      | some d => { s with error := some d }
      | none => s
  | .unknown => s

/-- The guard `messages.at(-1)?.role === "assistant"` of the generate-trigger effect. -/
def lastIsAssistant (ms : List ChatMessage) : Bool :=
  match ms.getLast? with
  | some m => decide (m.role = Role.assistant)
  | none => false

/-- The generate-trigger `useEffect`: bail out when no user turn exists or the
last turn is an assistant turn; otherwise clear `tps` and post a "generate"
command carrying the full transcript. -/
def runEffect (s : AppState) : AppState × List Cmd :=
  if (s.messages.filter (fun m => decide (m.role = Role.user))).length = 0 then (s, [])
  else if lastIsAssistant s.messages then (s, [])
  else ({ s with tps := none }, [Cmd.generate s.messages])

/-- Processing one worker event: run the handler, then re-run the
generate-trigger effect exactly when one of its dependencies changed.  The
"start" and "update" branches always call `setMessages` with a fresh array, so
the `messages` dependency changes; `isRunning` changes only when its value
actually changes (React bails out on identical state). -/
def workerStep (e : MessageData) (s : AppState) : AppState × List Cmd :=
  let s1 := onMessageReceived e s
  if parseStatus e.status = Status.start ∨ parseStatus e.status = Status.update ∨
      s1.isRunning ≠ s.isRunning then
    runEffect s1
  else (s1, [])

/-- `onEnter` of main.tsx: append the user turn, clear the tps metric, set the
running flag, clear the input box. -/
def onEnter (message : String) (s : AppState) : AppState :=
  { s with
      messages := s.messages ++ [{ role := Role.user, content := message, answerIndex := none }],
      tps := none, isRunning := true, input := "" }

/-- A user submission also re-runs the generate effect, since it touches both
`messages` and `isRunning`. -/
def submitStep (message : String) (s : AppState) : AppState × List Cmd :=
  runEffect (onEnter message s)

/-- UI-level events: one worker message, or one of the user interactions, each
with the guard under which the UI lets it happen (keydown guard for the input,
render-visibility guards for example/load buttons, disabled-state for load). -/
inductive Event
  | worker (e : MessageData)
  | submitInput
  | clickExample (msg : String)
  | clickReset
  | clickLoad
  | clickInterrupt
deriving DecidableEq, Repr

/-- One step of the UI: dispatch an event against the current state, producing
the next state and the worker commands posted during that step. -/
def step (s : AppState) : Event → AppState × List Cmd
  | .worker e => workerStep e s
  | .submitInput =>
      if 0 < s.input.length ∧ s.isRunning = false then submitStep s.input s else (s, [])
  | .clickExample msg =>
      if s.status = some "ready" ∧ s.messages = [] then submitStep msg s else (s, [])
  | .clickReset =>
      let r := runEffect { s with messages := [] }
      (r.1, Cmd.reset :: r.2)
  | .clickLoad =>
      if s.status = none ∧ s.error = none then
        ({ s with status := some "loading" }, [Cmd.load])
      else (s, [])
  | .clickInterrupt =>
      if s.isRunning = true then (s, [Cmd.interrupt]) else (s, [])

/-- Run a sequence of events, collecting all commands posted along the way. -/
def run (s : AppState) : List Event → AppState × List Cmd
  | [] => (s, [])
  | ev :: evs =>
      let r1 := step s ev
      let r2 := run r1.1 evs
      (r2.1, r1.2 ++ r2.2)

/-- Fuel-indexed base-1024 integer logarithm; with enough fuel it computes
`floor(log_1024 n)` for `n ≥ 1`, matching
`Math.floor(Math.log(size) / Math.log(1024))` on the integer byte counts the
component receives (where the float expression is exact). -/
def log1024Aux : Nat → Nat → Nat
  | 0, _ => 0
  | fuel + 1, n => if n < 1024 then 0 else log1024Aux fuel (n / 1024) + 1

/-- Base-1024 integer logarithm (the fuel `n` always suffices). -/
def log1024 (n : Nat) : Nat := log1024Aux n n

/-- Render the rounded value `n/100` the way JS prints `+(x.toFixed(2)) * 1`:
at most two decimals, trailing zeros (and a bare decimal point) stripped. -/
def stripTrailing (n : Nat) : String :=
  let ip := n / 100
  let fr := n % 100
  if fr = 0 then toString ip
  else if fr % 10 = 0 then toString ip ++ "." ++ toString (fr / 10)
  else if fr < 10 then toString ip ++ ".0" ++ toString fr
  else toString ip ++ "." ++ toString fr

/-- `formatBytes` of Progress.tsx on integer byte counts: pick
`i = floor(log_1024 size)` (forced to 0 for size 0), round `size / 1024^i` to
two decimals (ties away from zero, as `toFixed(2)` does), strip trailing
precision, and append the unit.  Sizes past the TB slot read past the unit
array in the source (JS yields NaN there) and are not modelled faithfully. -/
def formatBytes (size : Nat) : String :=
  let i := if size = 0 then 0 else log1024 size
  let scaled100 := (200 * size + 1024 ^ i) / (2 * 1024 ^ i)
  stripTrailing scaled100 ++ ["B", "kB", "MB", "GB", "TB"].getD i "undefined"

/-- `percentage.toFixed(2)` for the non-negative rationals the component shows:
round to two decimals, keep both decimal digits. -/
def toFixed2 (q : ℚ) : String :=
  let n := ((200 * q.num + (q.den : Int)) / (2 * (q.den : Int))).toNat
  let ip := n / 100
  let fr := n % 100
  toString ip ++ "." ++ (if fr < 10 then "0" ++ toString fr else toString fr)

/-- The text rendered by the `Progress` component for one download item:
the file name, the percentage, and the size suffix, which is omitted entirely
when `total` is absent or not a number (`isNaN(total!)`). -/
def progressLabel (text : String) (percentage : ℚ) (total : Option Nat) : String :=
  text ++ " (" ++ toFixed2 percentage ++ "%" ++
    (match total with
     | none => ""
     | some t => " of " ++ formatBytes t) ++ ")"

/-- Concatenation of the output fragments (`output ?? ""`) of a list of update events. -/
def outputsConcat : List MessageData → String
  | [] => ""
  | u :: us => u.output.getD "" ++ outputsConcat us

/-- Folding a list of update events over a single turn. -/
def streamTurn (t : ChatMessage) : List MessageData → ChatMessage
  | [] => t
  | u :: us => streamTurn (applyUpdateTurn t u.output u.state) us

/-- The file identifiers of the currently tracked download items. -/
def filesOf (s : AppState) : List (Option String) :=
  s.progressItems.map (fun item => item.file)

/-- Number of "generate" commands in a command list. -/
def genCount (cmds : List Cmd) : Nat :=
  (cmds.filter (fun c => match c with | Cmd.generate _ => true | _ => false)).length

/-- A worker event carrying only a status tag. -/
def statusMsg (st : String) : MessageData := { status := some st }

/-- A worker "update" event. -/
def updMsg (output state : String) : MessageData :=
  { status := some "update", output := some output, state := some state }

/-- A worker "initiate" event for a file. -/
def initiateMsg (f : String) : MessageData :=
  { status := some "initiate", file := some f }

/-- A worker "progress" event for a file. -/
def progressMsg (f : String) (p t : ℚ) : MessageData :=
  { status := some "progress", file := some f, progress := some p, total := some t }

/-- A worker "done" event for a file. -/
def doneMsg (f : String) : MessageData :=
  { status := some "done", file := some f }

/-! ## Basic lemmas about the update branch -/

theorem applyUpdateTurn_role (t : ChatMessage) (o st : Option String) :
    (applyUpdateTurn t o st).role = t.role := by
  unfold applyUpdateTurn
  split <;> rfl

theorem applyUpdateTurn_content (t : ChatMessage) (o st : Option String) :
    (applyUpdateTurn t o st).content = t.content ++ o.getD "" := by
  unfold applyUpdateTurn
  split <;> rfl

theorem applyUpdateTurn_answerIndex_some (t : ChatMessage) (o st : Option String)
    (a : Nat) (h : t.answerIndex = some a) :
    (applyUpdateTurn t o st).answerIndex = some a := by
  unfold applyUpdateTurn
  rw [if_neg]
  · exact h
  · rintro ⟨h1, _⟩
    rw [h] at h1
    simp at h1

theorem applyUpdateToMessages_nil (o st : Option String) :
    applyUpdateToMessages [] o st = [] := rfl

theorem applyUpdateToMessages_concat (ms : List ChatMessage) (t : ChatMessage)
    (o st : Option String) :
    applyUpdateToMessages (ms ++ [t]) o st = ms ++ [applyUpdateTurn t o st] := by
  unfold applyUpdateToMessages
  rw [List.getLast?_concat, List.dropLast_concat]

theorem streamTurn_role (us : List MessageData) :
    ∀ t : ChatMessage, (streamTurn t us).role = t.role := by
  induction us with
  | nil => intro t; rfl
  | cons u us ih =>
      intro t
      rw [streamTurn, ih, applyUpdateTurn_role]

theorem streamTurn_content (us : List MessageData) :
    ∀ t : ChatMessage, (streamTurn t us).content = t.content ++ outputsConcat us := by
  induction us with
  | nil =>
      intro t
      show t.content = t.content ++ ""
      rw [String.append_empty]
  | cons u us ih =>
      intro t
      rw [streamTurn, ih, applyUpdateTurn_content, outputsConcat, String.append_assoc]

theorem streamTurn_answerIndex_some (us : List MessageData) :
    ∀ (t : ChatMessage) (a : Nat), t.answerIndex = some a →
      (streamTurn t us).answerIndex = some a := by
  induction us with
  | nil => intro t a h; exact h
  | cons u us ih =>
      intro t a h
      rw [streamTurn]
      exact ih _ a (applyUpdateTurn_answerIndex_some t _ _ a h)

theorem streamTurn_answerIndex_first (us : List MessageData) :
    ∀ (k : Nat) (t : ChatMessage) (uk : MessageData),
      t.answerIndex = none →
      us.get? k = some uk →
      uk.state = some "answering" →
      (∀ j, j < k → ∀ u, us.get? j = some u → u.state ≠ some "answering") →
      (streamTurn t us).answerIndex =
        some (t.content.length + (outputsConcat (us.take k)).length) := by
  induction us with
  | nil =>
      intro k t uk _ hk
      simp at hk
  | cons u us ih =>
      intro k t uk hnone hk hans hbefore
      cases k with
      | zero =>
          simp only [List.get?] at hk
          injection hk with hk
          subst hk
          rw [streamTurn]
          have h1 : applyUpdateTurn t u.output u.state =
              { role := t.role, content := t.content ++ u.output.getD "",
                answerIndex := some t.content.length } := by
            unfold applyUpdateTurn
            rw [if_pos ⟨hnone, hans⟩]
          rw [h1, streamTurn_answerIndex_some us _ t.content.length rfl]
          simp [outputsConcat]
      | succ j =>
          have hu : u.state ≠ some "answering" := hbefore 0 (Nat.succ_pos j) u rfl
          rw [streamTurn]
          have h1 : applyUpdateTurn t u.output u.state =
              { role := t.role, content := t.content ++ u.output.getD "",
                answerIndex := none } := by
            unfold applyUpdateTurn
            rw [if_neg, hnone]
            rintro ⟨_, h2⟩
            exact hu h2
          rw [h1]
          rw [ih j _ uk rfl hk hans
            (fun j' hj' u' hu' => hbefore (j' + 1) (Nat.succ_lt_succ hj') u' hu')]
          have hlen : (t.content ++ u.output.getD "").length =
              t.content.length + (u.output.getD "").length := String.length_append _ _
          rw [hlen, List.take_succ_cons]
          show _ = some (t.content.length + (u.output.getD "" ++ outputsConcat (us.take j)).length)
          rw [String.length_append, Nat.add_assoc]

/-! ## Branch lemmas for the message handler and the generate effect -/

theorem run_cons (s : AppState) (ev : Event) (evs : List Event) :
    run s (ev :: evs) =
      ((run (step s ev).1 evs).1, (step s ev).2 ++ (run (step s ev).1 evs).2) := rfl

theorem onMessageReceived_loading (e : MessageData) (s : AppState)
    (he : parseStatus e.status = Status.loading) :
    onMessageReceived e s =
      (match e.data with
       | some d => { s with status := some "loading", loadingMessage := d }
       | none => { s with status := some "loading" }) := by
  unfold onMessageReceived
  rw [he]

theorem onMessageReceived_initiate (e : MessageData) (s : AppState)
    (he : parseStatus e.status = Status.initiate) :
    onMessageReceived e s = { s with progressItems := s.progressItems ++ [e] } := by
  unfold onMessageReceived
  rw [he]

theorem onMessageReceived_progress (e : MessageData) (s : AppState)
    (he : parseStatus e.status = Status.progress) :
    onMessageReceived e s =
      { s with progressItems :=
          s.progressItems.map (fun item =>
            if item.file = e.file then
              { item with progress := e.progress, total := e.total }
            else item) } := by
  unfold onMessageReceived
  rw [he]

theorem onMessageReceived_done (e : MessageData) (s : AppState)
    (he : parseStatus e.status = Status.done) :
    onMessageReceived e s =
      { s with progressItems :=
          s.progressItems.filter (fun item => decide (item.file ≠ e.file)) } := by
  unfold onMessageReceived
  rw [he]

theorem onMessageReceived_ready (e : MessageData) (s : AppState)
    (he : parseStatus e.status = Status.ready) :
    onMessageReceived e s = { s with status := some "ready" } := by
  unfold onMessageReceived
  rw [he]

theorem onMessageReceived_start (e : MessageData) (s : AppState)
    (he : parseStatus e.status = Status.start) :
    onMessageReceived e s =
      { s with messages :=
          s.messages ++ [{ role := Role.assistant, content := "", answerIndex := none }] } := by
  unfold onMessageReceived
  rw [he]

theorem onMessageReceived_update (e : MessageData) (s : AppState)
    (he : parseStatus e.status = Status.update) :
    onMessageReceived e s =
      { s with tps := e.tps, numTokens := e.numTokens,
               messages := applyUpdateToMessages s.messages e.output e.state } := by
  unfold onMessageReceived
  rw [he]

theorem onMessageReceived_complete (e : MessageData) (s : AppState)
    (he : parseStatus e.status = Status.complete) :
    onMessageReceived e s = { s with isRunning := false } := by
  unfold onMessageReceived
  rw [he]

theorem onMessageReceived_error (e : MessageData) (s : AppState)
    (he : parseStatus e.status = Status.error) :
    onMessageReceived e s =
      (match e.data with
       | some d => { s with error := some d }
       | none => s) := by
  unfold onMessageReceived
  rw [he]

theorem onMessageReceived_unknown (e : MessageData) (s : AppState)
    (he : parseStatus e.status = Status.unknown) :
    onMessageReceived e s = s := by
  unfold onMessageReceived
  rw [he]

theorem onMessageReceived_isRunning (e : MessageData) (s : AppState)
    (h : parseStatus e.status ≠ Status.complete) :
    (onMessageReceived e s).isRunning = s.isRunning := by
  unfold onMessageReceived
  cases hp : parseStatus e.status <;>
    first
      | rfl
      | (cases e.data <;> rfl)
      | exact absurd hp h

theorem workerStep_skip (e : MessageData) (s : AppState)
    (h1 : parseStatus e.status ≠ Status.start)
    (h2 : parseStatus e.status ≠ Status.update)
    (h3 : parseStatus e.status ≠ Status.complete) :
    workerStep e s = (onMessageReceived e s, []) := by
  have hc : ¬(parseStatus e.status = Status.start ∨ parseStatus e.status = Status.update ∨
      (onMessageReceived e s).isRunning ≠ s.isRunning) := by
    rintro (hs | hs | hs)
    · exact h1 hs
    · exact h2 hs
    · exact hs (onMessageReceived_isRunning e s h3)
  simp only [workerStep]
  rw [if_neg hc]

theorem lastIsAssistant_concat (ms : List ChatMessage) (t : ChatMessage) :
    lastIsAssistant (ms ++ [t]) = decide (t.role = Role.assistant) := by
  unfold lastIsAssistant
  rw [List.getLast?_concat]

theorem runEffect_last_assistant (s : AppState) (ms : List ChatMessage) (t : ChatMessage)
    (hm : s.messages = ms ++ [t]) (ht : t.role = Role.assistant) :
    runEffect s = (s, []) := by
  unfold runEffect
  rw [hm, lastIsAssistant_concat, ht]
  simp

theorem runEffect_fst (s : AppState) :
    (runEffect s).1 = s ∨ (runEffect s).1 = { s with tps := none } := by
  unfold runEffect
  split
  · exact Or.inl rfl
  · split
    · exact Or.inl rfl
    · exact Or.inr rfl

theorem runEffect_gen_mem (s : AppState) (ms : List ChatMessage)
    (h : Cmd.generate ms ∈ (runEffect s).2) :
    ms = s.messages ∧ (runEffect s).2 = [Cmd.generate s.messages] ∧
      (runEffect s).1 = { s with tps := none } ∧
      lastIsAssistant s.messages = false ∧
      (s.messages.filter (fun m => decide (m.role = Role.user))).length ≠ 0 := by
  by_cases h1 : (s.messages.filter (fun m => decide (m.role = Role.user))).length = 0
  · unfold runEffect at h
    rw [if_pos h1] at h
    simp at h
  · by_cases h2 : lastIsAssistant s.messages = true
    · unfold runEffect at h
      rw [if_neg h1, if_pos h2] at h
      simp at h
    · have hr : runEffect s = ({ s with tps := none }, [Cmd.generate s.messages]) := by
        unfold runEffect
        rw [if_neg h1, if_neg h2]
      rw [hr] at h ⊢
      simp only [List.mem_singleton] at h
      injection h with h
      subst h
      exact ⟨rfl, rfl, rfl, Bool.eq_false_iff.mpr h2, h1⟩

theorem lastIsAssistant_false_user (ms : List ChatMessage)
    (m : ChatMessage) (hlast : ms.getLast? = some m)
    (h : lastIsAssistant ms = false) : m.role = Role.user := by
  unfold lastIsAssistant at h
  rw [hlast] at h
  simp only [decide_eq_false_iff_not] at h
  cases hr : m.role
  · rfl
  · exact absurd hr h

theorem workerStep_start (e : MessageData) (s : AppState)
    (he : parseStatus e.status = Status.start) :
    workerStep e s =
      runEffect { s with messages :=
        s.messages ++ [{ role := Role.assistant, content := "", answerIndex := none }] } := by
  simp only [workerStep]
  rw [onMessageReceived_start e s he, if_pos (Or.inl he)]

theorem workerStep_update (e : MessageData) (s : AppState)
    (he : parseStatus e.status = Status.update)
    (ms : List ChatMessage) (t : ChatMessage)
    (hm : s.messages = ms ++ [t]) (ht : t.role = Role.assistant) :
    workerStep e s =
      ({ s with tps := e.tps, numTokens := e.numTokens,
                messages := ms ++ [applyUpdateTurn t e.output e.state] }, []) := by
  have h1 : onMessageReceived e s =
      { s with tps := e.tps, numTokens := e.numTokens,
               messages := ms ++ [applyUpdateTurn t e.output e.state] } := by
    rw [onMessageReceived_update e s he, hm, applyUpdateToMessages_concat]
  simp only [workerStep]
  rw [h1, if_pos (Or.inr (Or.inl he))]
  exact runEffect_last_assistant _ ms _ rfl (by rw [applyUpdateTurn_role]; exact ht)

theorem workerStep_complete (e : MessageData) (s : AppState)
    (he : parseStatus e.status = Status.complete)
    (ms : List ChatMessage) (t : ChatMessage)
    (hm : s.messages = ms ++ [t]) (ht : t.role = Role.assistant) :
    workerStep e s = ({ s with isRunning := false }, []) := by
  simp only [workerStep]
  rw [onMessageReceived_complete e s he]
  cases hrun : s.isRunning with
  | false =>
      rw [if_neg]
      rintro (hs | hs | hs)
      · rw [he] at hs; exact Status.noConfusion hs
      · rw [he] at hs; exact Status.noConfusion hs
      · exact hs rfl
  | true =>
      rw [if_pos (Or.inr (Or.inr (by simp)))]
      exact runEffect_last_assistant _ ms t hm ht

theorem chatMessage_eq_of_fields (m1 m2 : ChatMessage) (h1 : m1.role = m2.role)
    (h2 : m1.content = m2.content) (h3 : m1.answerIndex = m2.answerIndex) : m1 = m2 := by
  cases m1
  cases m2
  simp_all

theorem run_append (s : AppState) (es1 es2 : List Event) :
    run s (es1 ++ es2) =
      ((run (run s es1).1 es2).1, (run s es1).2 ++ (run (run s es1).1 es2).2) := by
  induction es1 generalizing s with
  | nil => simp [run]
  | cons ev es1 ih =>
      rw [List.cons_append, run_cons, run_cons, ih]
      simp [List.append_assoc]

/-- A block of update events streams into the last turn of the transcript,
emits no commands, and leaves the running flag alone, provided that last turn
is an assistant turn. -/
theorem run_updates (us : List MessageData) :
    (∀ u ∈ us, parseStatus u.status = Status.update) →
    ∀ (s : AppState) (ms : List ChatMessage) (t : ChatMessage),
      s.messages = ms ++ [t] → t.role = Role.assistant →
      (run s (us.map Event.worker)).1.messages = ms ++ [streamTurn t us] ∧
      (run s (us.map Event.worker)).1.isRunning = s.isRunning ∧
      (run s (us.map Event.worker)).2 = [] := by
  induction us with
  | nil =>
      intro _ s ms t hm _
      simp only [List.map_nil]
      exact ⟨hm, rfl, rfl⟩
  | cons u us ih =>
      intro hall s ms t hm ht
      have hu : parseStatus u.status = Status.update := hall u (by simp)
      have hws := workerStep_update u s hu ms t hm ht
      have hstep : step s (Event.worker u) = workerStep u s := rfl
      obtain ⟨h1, h2, h3⟩ := ih (fun v hv => hall v (by simp [hv]))
        { s with tps := u.tps, numTokens := u.numTokens,
                 messages := ms ++ [applyUpdateTurn t u.output u.state] }
        ms (applyUpdateTurn t u.output u.state) rfl
        (by rw [applyUpdateTurn_role]; exact ht)
      rw [List.map_cons, run_cons, hstep, hws]
      refine ⟨?_, ?_, ?_⟩
      · rw [show streamTurn t (u :: us) = streamTurn (applyUpdateTurn t u.output u.state) us
          from rfl]
        exact h1
      · exact h2
      · rw [List.nil_append]
        exact h3

/-- C1: across a worker cycle start → updates → complete whose first
"answering" update sits at index k, the new assistant turn collects the
concatenation of all output fragments, its answerIndex is the cumulative
content length accumulated strictly before event k (and is never changed by
the later events), and the running flag is false afterwards. -/
theorem answering_boundary (s : AppState) (us : List MessageData) (k : Nat) (uk : MessageData)
    (hall : ∀ u ∈ us, parseStatus u.status = Status.update)
    (hk : us.get? k = some uk)
    (hans : uk.state = some "answering")
    (hbefore : ∀ j, j < k → ∀ u, us.get? j = some u → u.state ≠ some "answering") :
    (run s (Event.worker (statusMsg "start") :: us.map Event.worker ++
        [Event.worker (statusMsg "complete")])).1.messages =
      s.messages ++ [{ role := Role.assistant, content := outputsConcat us,
                       answerIndex := some (outputsConcat (us.take k)).length }] ∧
    (run s (Event.worker (statusMsg "start") :: us.map Event.worker ++
        [Event.worker (statusMsg "complete")])).1.isRunning = false := by
  have hstart : parseStatus (statusMsg "start").status = Status.start := rfl
  have hstep1 : step s (Event.worker (statusMsg "start")) =
      ({ s with messages :=
          s.messages ++ [{ role := Role.assistant, content := "", answerIndex := none }] },
        []) := by
    rw [show step s (Event.worker (statusMsg "start")) = workerStep (statusMsg "start") s
        from rfl,
      workerStep_start _ s hstart]
    exact runEffect_last_assistant _ s.messages _ rfl rfl
  obtain ⟨h1, h2, h3⟩ := run_updates us hall
    { s with messages :=
        s.messages ++ [{ role := Role.assistant, content := "", answerIndex := none }] }
    s.messages { role := Role.assistant, content := "", answerIndex := none } rfl rfl
  have hturn : streamTurn { role := Role.assistant, content := "", answerIndex := none } us =
      { role := Role.assistant, content := outputsConcat us,
        answerIndex := some (outputsConcat (us.take k)).length } := by
    refine chatMessage_eq_of_fields _ _ ?_ ?_ ?_
    · rw [streamTurn_role]
    · rw [streamTurn_content]
      show "" ++ outputsConcat us = outputsConcat us
      simp
    · rw [streamTurn_answerIndex_first us k _ uk rfl hk hans hbefore]
      show some ("".length + (outputsConcat (us.take k)).length) = _
      rw [show ("" : String).length = 0 from rfl, Nat.zero_add]
  have hcomp : step (run { s with messages :=
      s.messages ++ [{ role := Role.assistant, content := "", answerIndex := none }] }
        (us.map Event.worker)).1 (Event.worker (statusMsg "complete")) =
      ({ (run { s with messages :=
          s.messages ++ [{ role := Role.assistant, content := "", answerIndex := none }] }
            (us.map Event.worker)).1 with isRunning := false }, []) := by
    rw [show ∀ s', step s' (Event.worker (statusMsg "complete")) =
        workerStep (statusMsg "complete") s' from fun _ => rfl]
    exact workerStep_complete _ _ rfl s.messages
      (streamTurn { role := Role.assistant, content := "", answerIndex := none } us) h1
      (by rw [streamTurn_role])
  have hsingle : ∀ (s' : AppState), run s' [Event.worker (statusMsg "complete")] =
      ((step s' (Event.worker (statusMsg "complete"))).1,
        (step s' (Event.worker (statusMsg "complete"))).2 ++ []) := fun _ => rfl
  rw [List.cons_append, run_cons]
  simp only [hstep1]
  rw [run_append, hsingle, hcomp]
  constructor
  · show (run _ (us.map Event.worker)).1.messages = _
    rw [h1, hturn]
  · rfl
/-- Concrete instance of the answering boundary: start, update("Hi", thinking),
update(" there", answering), complete, from the initial state. -/
theorem answering_boundary_check :
    (run initialState (Event.worker (statusMsg "start") ::
        [updMsg "Hi" "thinking", updMsg " there" "answering"].map Event.worker ++
        [Event.worker (statusMsg "complete")])).1.messages =
      [{ role := Role.assistant, content := "Hi there", answerIndex := some 2 }] ∧
    (run initialState (Event.worker (statusMsg "start") ::
        [updMsg "Hi" "thinking", updMsg " there" "answering"].map Event.worker ++
        [Event.worker (statusMsg "complete")])).1.isRunning = false := by
  have h := answering_boundary initialState
    [updMsg "Hi" "thinking", updMsg " there" "answering"] 1 (updMsg " there" "answering")
    (by decide) rfl rfl
    (by
      intro j hj u hu
      cases j with
      | zero =>
          injection hu with hu
          subst hu
          decide
      | succ n => exact absurd hj (by omega))
  refine ⟨?_, h.2⟩
  rw [h.1]
  decide

/-! ## Projection helpers for the effect and the worker step -/

theorem runEffect_fst_progressItems (s : AppState) :
    (runEffect s).1.progressItems = s.progressItems := by
  rcases runEffect_fst s with h | h <;> rw [h]

theorem runEffect_fst_status (s : AppState) : (runEffect s).1.status = s.status := by
  rcases runEffect_fst s with h | h <;> rw [h]

theorem runEffect_fst_messages (s : AppState) : (runEffect s).1.messages = s.messages := by
  rcases runEffect_fst s with h | h <;> rw [h]

theorem runEffect_fst_isRunning (s : AppState) : (runEffect s).1.isRunning = s.isRunning := by
  rcases runEffect_fst s with h | h <;> rw [h]

theorem workerStep_fst_messages (e : MessageData) (s : AppState) :
    (workerStep e s).1.messages = (onMessageReceived e s).messages := by
  simp only [workerStep]
  split
  · exact runEffect_fst_messages _
  · rfl

theorem workerStep_fst_progressItems (e : MessageData) (s : AppState) :
    (workerStep e s).1.progressItems = (onMessageReceived e s).progressItems := by
  simp only [workerStep]
  split
  · exact runEffect_fst_progressItems _
  · rfl

theorem workerStep_fst_status (e : MessageData) (s : AppState) :
    (workerStep e s).1.status = (onMessageReceived e s).status := by
  simp only [workerStep]
  split
  · exact runEffect_fst_status _
  · rfl

theorem onMessageReceived_progressItems (e : MessageData) (s : AppState)
    (h1 : parseStatus e.status ≠ Status.initiate)
    (h2 : parseStatus e.status ≠ Status.progress)
    (h3 : parseStatus e.status ≠ Status.done) :
    (onMessageReceived e s).progressItems = s.progressItems := by
  unfold onMessageReceived
  cases hp : parseStatus e.status <;>
    first
      | rfl
      | (cases e.data <;> rfl)
      | exact absurd hp h1
      | exact absurd hp h2
      | exact absurd hp h3

theorem onMessageReceived_status (e : MessageData) (s : AppState)
    (h1 : parseStatus e.status ≠ Status.loading)
    (h2 : parseStatus e.status ≠ Status.ready) :
    (onMessageReceived e s).status = s.status := by
  unfold onMessageReceived
  cases hp : parseStatus e.status <;>
    first
      | rfl
      | (cases e.data <;> rfl)
      | exact absurd hp h1
      | exact absurd hp h2

/-! ## C10: update events with and without a preceding start -/

/-- C10: an "update" event with an empty transcript leaves the turn sequence
empty (a silent no-op on the transcript); with a non-empty transcript the
fragment is appended to the last turn regardless of its role, and an update in
the answering phase sets answerIndex on a trailing user turn. -/
theorem update_before_start (e : MessageData) (s : AppState)
    (he : parseStatus e.status = Status.update) :
    (s.messages = [] → (workerStep e s).1.messages = []) ∧
    (∀ ms t, s.messages = ms ++ [t] →
      (workerStep e s).1.messages = ms ++ [applyUpdateTurn t e.output e.state]) ∧
    (∀ ms t, s.messages = ms ++ [t] → t.role = Role.user → t.answerIndex = none →
      e.state = some "answering" →
      (workerStep e s).1.messages =
        ms ++ [{ role := Role.user, content := t.content ++ e.output.getD "",
                 answerIndex := some t.content.length }]) := by
  have hbase : (workerStep e s).1.messages =
      applyUpdateToMessages s.messages e.output e.state := by
    rw [workerStep_fst_messages, onMessageReceived_update e s he]
  refine ⟨?_, ?_, ?_⟩
  · intro hnil
    rw [hbase, hnil, applyUpdateToMessages_nil]
  · intro ms t hm
    rw [hbase, hm, applyUpdateToMessages_concat]
  · intro ms t hm hrole hnone hans
    rw [hbase, hm, applyUpdateToMessages_concat]
    have h2 : applyUpdateTurn t e.output e.state =
        { role := Role.user, content := t.content ++ e.output.getD "",
          answerIndex := some t.content.length } := by
      unfold applyUpdateTurn
      rw [if_pos ⟨hnone, hans⟩, hrole]
    rw [h2]

/-- Concrete instance: an update in the answering phase arriving while the last
turn is still the user's appends to it and stamps answerIndex on it, and an
update on an empty transcript leaves it empty. -/
theorem update_before_start_check :
    (workerStep (updMsg " x" "answering")
        { initialState with
            messages := [{ role := Role.user, content := "hi", answerIndex := none }] }).1.messages =
      [{ role := Role.user, content := "hi x", answerIndex := some 2 }] ∧
    (workerStep (updMsg " x" "answering") initialState).1.messages = [] := by
  constructor
  · have h := (update_before_start (updMsg " x" "answering")
      { initialState with
          messages := [{ role := Role.user, content := "hi", answerIndex := none }] } rfl).2.2
      [] { role := Role.user, content := "hi", answerIndex := none } rfl rfl rfl rfl
    rw [h]
    decide
  · exact (update_before_start (updMsg " x" "answering") initialState rfl).1 rfl

/-! ## C8: copy-on-write shape of the update mutation -/

/-- C8: processing an "update" replaces only the last slot of the transcript:
the new sequence is the old prefix plus one new turn derived from the old last
turn; the length is unchanged and every earlier position holds the very turn it
held before. -/
theorem update_copy_on_write (e : MessageData) (s : AppState)
    (he : parseStatus e.status = Status.update)
    (ms : List ChatMessage) (t : ChatMessage) (hm : s.messages = ms ++ [t]) :
    (workerStep e s).1.messages = ms ++ [applyUpdateTurn t e.output e.state] ∧
    (workerStep e s).1.messages.length = s.messages.length ∧
    (∀ i, i < ms.length → (workerStep e s).1.messages.get? i = s.messages.get? i) := by
  have hbase : (workerStep e s).1.messages = ms ++ [applyUpdateTurn t e.output e.state] := by
    rw [workerStep_fst_messages, onMessageReceived_update e s he, hm,
      applyUpdateToMessages_concat]
  refine ⟨hbase, ?_, ?_⟩
  · rw [hbase, hm, List.length_append, List.length_append]
    rfl
  · intro i hi
    rw [hbase, hm, List.get?_append hi, List.get?_append hi]

/-- Concrete instance of the copy-on-write shape: the earlier user turn is kept
at index 0 and only the trailing assistant turn is replaced. -/
theorem update_copy_on_write_check :
    (workerStep (updMsg "!" "thinking")
        { initialState with
            messages := [{ role := Role.user, content := "q", answerIndex := none },
                         { role := Role.assistant, content := "a", answerIndex := none }] }).1.messages =
      [{ role := Role.user, content := "q", answerIndex := none },
       { role := Role.assistant, content := "a!", answerIndex := none }] := by
  have h := (update_copy_on_write (updMsg "!" "thinking")
    { initialState with
        messages := [{ role := Role.user, content := "q", answerIndex := none },
                     { role := Role.assistant, content := "a", answerIndex := none }] } rfl
    [{ role := Role.user, content := "q", answerIndex := none }]
    { role := Role.assistant, content := "a", answerIndex := none } rfl).1
  rw [h]
  decide

/-! ## C7: unknown statuses and unknown file ids are silent no-ops -/

theorem progress_map_noop (items : List MessageData) (e : MessageData)
    (h : ∀ item ∈ items, item.file ≠ e.file) :
    items.map (fun item =>
      if item.file = e.file then { item with progress := e.progress, total := e.total }
      else item) = items := by
  induction items with
  | nil => rfl
  | cons it its ih =>
      rw [List.map_cons, if_neg (h it (by simp)), ih (fun x hx => h x (by simp [hx]))]

theorem done_filter_noop (items : List MessageData) (e : MessageData)
    (h : ∀ item ∈ items, item.file ≠ e.file) :
    items.filter (fun item => decide (item.file ≠ e.file)) = items := by
  induction items with
  | nil => rfl
  | cons it its ih =>
      have hp : (fun (item : MessageData) => decide (item.file ≠ e.file)) it = true := by
        simp only [decide_eq_true_eq]
        exact h it (by simp)
      rw [@List.filter_cons_of_pos _ (fun item => decide (item.file ≠ e.file)) it its hp,
        ih (fun x hx => h x (by simp [hx]))]

theorem workerStep_noop_unknown (e : MessageData) (s : AppState)
    (he : parseStatus e.status = Status.unknown) :
    workerStep e s = (s, []) := by
  rw [workerStep_skip e s (by rw [he]; decide) (by rw [he]; decide) (by rw [he]; decide),
    onMessageReceived_unknown e s he]

theorem workerStep_noop_progress_unknown (e : MessageData) (s : AppState)
    (he : parseStatus e.status = Status.progress) (hf : e.file ∉ filesOf s) :
    workerStep e s = (s, []) := by
  have hne : ∀ item ∈ s.progressItems, item.file ≠ e.file := by
    intro item hit hcontra
    apply hf
    rw [← hcontra]
    exact List.mem_map_of_mem _ hit
  rw [workerStep_skip e s (by rw [he]; decide) (by rw [he]; decide) (by rw [he]; decide),
    onMessageReceived_progress e s he, progress_map_noop s.progressItems e hne]

theorem workerStep_noop_done_unknown (e : MessageData) (s : AppState)
    (he : parseStatus e.status = Status.done) (hf : e.file ∉ filesOf s) :
    workerStep e s = (s, []) := by
  have hne : ∀ item ∈ s.progressItems, item.file ≠ e.file := by
    intro item hit hcontra
    apply hf
    rw [← hcontra]
    exact List.mem_map_of_mem _ hit
  rw [workerStep_skip e s (by rw [he]; decide) (by rw [he]; decide) (by rw [he]; decide),
    onMessageReceived_done e s he, done_filter_noop s.progressItems e hne]

theorem workerStep_done_absent (e : MessageData) (s : AppState)
    (he : parseStatus e.status = Status.done) :
    e.file ∉ filesOf (workerStep e s).1 := by
  intro hmem
  rw [show filesOf (workerStep e s).1 =
      (workerStep e s).1.progressItems.map (fun item => item.file) from rfl,
    workerStep_fst_progressItems, onMessageReceived_done e s he] at hmem
  obtain ⟨item, hitem, hfile⟩ := List.mem_map.mp hmem
  have hne := (List.mem_filter.mp hitem).2
  simp only [decide_eq_true_eq] at hne
  exact hne hfile

/-- C7: a worker event with an unknown or missing status is a silent no-op on
the whole state; "progress" and "done" events whose file matches no tracked
item leave everything unchanged; and after a "done" for a file, the file is
absent and a subsequent "progress" for it is again a silent no-op. -/
theorem silent_noop_events (e : MessageData) (s : AppState) :
    (parseStatus e.status = Status.unknown → workerStep e s = (s, [])) ∧
    (parseStatus e.status = Status.progress → e.file ∉ filesOf s →
      workerStep e s = (s, [])) ∧
    (parseStatus e.status = Status.done → e.file ∉ filesOf s →
      workerStep e s = (s, [])) ∧
    (parseStatus e.status = Status.done → ∀ e2, parseStatus e2.status = Status.progress →
      e2.file = e.file →
      workerStep e2 (workerStep e s).1 = ((workerStep e s).1, []) ∧
      e2.file ∉ filesOf (workerStep e s).1) := by
  refine ⟨fun he => workerStep_noop_unknown e s he,
    fun he hf => workerStep_noop_progress_unknown e s he hf,
    fun he hf => workerStep_noop_done_unknown e s he hf,
    fun he e2 he2 hfe => ?_⟩
  have habs : e2.file ∉ filesOf (workerStep e s).1 := by
    rw [hfe]
    exact workerStep_done_absent e s he
  exact ⟨workerStep_noop_progress_unknown e2 _ he2 habs, habs⟩

/-- Concrete instance: a bogus status is a no-op from the initial state, and a
done("f") followed by progress("f") leaves the state of the done step alone. -/
theorem silent_noop_events_check :
    workerStep { status := some "bogus" } initialState = (initialState, []) ∧
    workerStep (progressMsg "f" 50 100)
        (workerStep (doneMsg "f")
          { initialState with progressItems := [initiateMsg "f"] }).1 =
      ((workerStep (doneMsg "f")
          { initialState with progressItems := [initiateMsg "f"] }).1, []) := by
  constructor
  · exact (silent_noop_events { status := some "bogus" } initialState).1 rfl
  · exact ((silent_noop_events (doneMsg "f")
      { initialState with progressItems := [initiateMsg "f"] }).2.2.2 rfl
      (progressMsg "f" 50 100) rfl rfl).1

/-! ## C2: uniqueness of tracked file ids -/

theorem submitStep_fst_progressItems (m : String) (s : AppState) :
    (submitStep m s).1.progressItems = s.progressItems := by
  show (runEffect (onEnter m s)).1.progressItems = s.progressItems
  rw [runEffect_fst_progressItems]
  rfl

theorem step_fst_progressItems_user (s : AppState) (ev : Event)
    (h : ∀ e, ev ≠ Event.worker e) :
    (step s ev).1.progressItems = s.progressItems := by
  cases ev with
  | worker e => exact absurd rfl (h e)
  | submitInput =>
      simp only [step]
      split
      · exact submitStep_fst_progressItems _ _
      · rfl
  | clickExample msg =>
      simp only [step]
      split
      · exact submitStep_fst_progressItems _ _
      · rfl
  | clickReset =>
      show (runEffect { s with messages := [] }).1.progressItems = s.progressItems
      rw [runEffect_fst_progressItems]
  | clickLoad =>
      simp only [step]
      split <;> rfl
  | clickInterrupt =>
      simp only [step]
      split <;> rfl

theorem progress_map_files (items : List MessageData) (e : MessageData) :
    (items.map (fun item =>
      if item.file = e.file then { item with progress := e.progress, total := e.total }
      else item)).map (fun item => item.file) = items.map (fun item => item.file) := by
  induction items with
  | nil => rfl
  | cons it its ih =>
      by_cases hc : it.file = e.file
      · rw [List.map_cons, if_pos hc, List.map_cons, List.map_cons, ih]
      · rw [List.map_cons, if_neg hc, List.map_cons, List.map_cons, ih]

theorem step_nodup (s : AppState) (ev : Event) (hnd : (filesOf s).Nodup)
    (hfresh : ∀ e, ev = Event.worker e → parseStatus e.status = Status.initiate →
      e.file ∉ filesOf s) :
    (filesOf (step s ev).1).Nodup := by
  cases ev with
  | worker e =>
      have hw : filesOf (step s (Event.worker e)).1 =
          (onMessageReceived e s).progressItems.map (fun item => item.file) := by
        rw [show filesOf (step s (Event.worker e)).1 =
            (workerStep e s).1.progressItems.map (fun item => item.file) from rfl,
          workerStep_fst_progressItems]
      rw [hw]
      cases hp : parseStatus e.status with
      | initiate =>
          rw [onMessageReceived_initiate e s hp, List.map_append]
          have hf := hfresh e rfl hp
          simp only [List.map_cons, List.map_nil]
          rw [List.nodup_append]
          exact ⟨hnd, List.nodup_singleton _,
            by
              intro a ha hb
              simp only [List.mem_singleton] at hb
              subst hb
              exact hf ha⟩
      | progress =>
          rw [onMessageReceived_progress e s hp, progress_map_files]
          exact hnd
      | done =>
          rw [onMessageReceived_done e s hp]
          exact ((List.filter_sublist _).map _).nodup hnd
      | loading =>
          rw [onMessageReceived_progressItems e s (by rw [hp]; decide) (by rw [hp]; decide)
            (by rw [hp]; decide)]
          exact hnd
      | ready =>
          rw [onMessageReceived_progressItems e s (by rw [hp]; decide) (by rw [hp]; decide)
            (by rw [hp]; decide)]
          exact hnd
      | start =>
          rw [onMessageReceived_progressItems e s (by rw [hp]; decide) (by rw [hp]; decide)
            (by rw [hp]; decide)]
          exact hnd
      | update =>
          rw [onMessageReceived_progressItems e s (by rw [hp]; decide) (by rw [hp]; decide)
            (by rw [hp]; decide)]
          exact hnd
      | complete =>
          rw [onMessageReceived_progressItems e s (by rw [hp]; decide) (by rw [hp]; decide)
            (by rw [hp]; decide)]
          exact hnd
      | error =>
          rw [onMessageReceived_progressItems e s (by rw [hp]; decide) (by rw [hp]; decide)
            (by rw [hp]; decide)]
          exact hnd
      | unknown =>
          rw [onMessageReceived_progressItems e s (by rw [hp]; decide) (by rw [hp]; decide)
            (by rw [hp]; decide)]
          exact hnd
  | submitInput =>
      rw [show filesOf (step s Event.submitInput).1 =
          (step s Event.submitInput).1.progressItems.map (fun item => item.file) from rfl,
        step_fst_progressItems_user s _ (fun e h => Event.noConfusion h)]
      exact hnd
  | clickExample msg =>
      rw [show filesOf (step s (Event.clickExample msg)).1 =
          (step s (Event.clickExample msg)).1.progressItems.map (fun item => item.file) from rfl,
        step_fst_progressItems_user s _ (fun e h => Event.noConfusion h)]
      exact hnd
  | clickReset =>
      rw [show filesOf (step s Event.clickReset).1 =
          (step s Event.clickReset).1.progressItems.map (fun item => item.file) from rfl,
        step_fst_progressItems_user s _ (fun e h => Event.noConfusion h)]
      exact hnd
  | clickLoad =>
      rw [show filesOf (step s Event.clickLoad).1 =
          (step s Event.clickLoad).1.progressItems.map (fun item => item.file) from rfl,
        step_fst_progressItems_user s _ (fun e h => Event.noConfusion h)]
      exact hnd
  | clickInterrupt =>
      rw [show filesOf (step s Event.clickInterrupt).1 =
          (step s Event.clickInterrupt).1.progressItems.map (fun item => item.file) from rfl,
        step_fst_progressItems_user s _ (fun e h => Event.noConfusion h)]
      exact hnd

/-- Is this event either not an "initiate", or an "initiate" whose file id is
not currently tracked? -/
def initiateFresh (s : AppState) : Event → Bool
  | Event.worker e =>
      if parseStatus e.status = Status.initiate then decide (e.file ∉ filesOf s) else true
  | _ => true

/-- Does every "initiate" event in the trace carry a file id that is not
currently tracked when it arrives? -/
def freshInitiates : AppState → List Event → Bool
  | _, [] => true
  | s, ev :: evs => initiateFresh s ev && freshInitiates (step s ev).1 evs

/-- C2 counterexample: two "initiate" events with the same file leave two items
with the same file id in the tracker, so the uniqueness invariant fails as
stated. -/
theorem duplicate_initiate_cex :
    filesOf (run initialState
        [Event.worker (initiateMsg "model.onnx"),
         Event.worker (initiateMsg "model.onnx")]).1 =
      [some "model.onnx", some "model.onnx"] ∧
    ¬ (filesOf (run initialState
        [Event.worker (initiateMsg "model.onnx"),
         Event.worker (initiateMsg "model.onnx")]).1).Nodup := by
  exact ⟨by decide, by decide⟩

/-- C2 amended: provided every "initiate" event carries a file id not currently
tracked when it arrives (duplicates are otherwise appended verbatim), the
tracker never holds two items with the same file id. -/
theorem tracker_nodup_of_fresh (es : List Event) :
    ∀ s : AppState, (filesOf s).Nodup → freshInitiates s es = true →
      (filesOf (run s es).1).Nodup := by
  induction es with
  | nil => intro s h _; exact h
  | cons ev evs ih =>
      intro s hnd hfresh
      rw [freshInitiates, Bool.and_eq_true] at hfresh
      obtain ⟨h1, h2⟩ := hfresh
      show (filesOf (run (step s ev).1 evs).1).Nodup
      apply ih _ (step_nodup s ev hnd ?_) h2
      intro e hev hp
      subst hev
      simp only [initiateFresh, if_pos hp] at h1
      exact of_decide_eq_true h1

/-- Concrete instance: distinct initiates, a progress, a done, then a
re-initiate of the finished file keep all tracked file ids distinct. -/
theorem tracker_nodup_of_fresh_check :
    (filesOf (run initialState
        [Event.worker (initiateMsg "a"), Event.worker (initiateMsg "b"),
         Event.worker (progressMsg "a" 10 100), Event.worker (doneMsg "a"),
         Event.worker (initiateMsg "a")]).1).Nodup :=
  tracker_nodup_of_fresh _ initialState (by decide) (by decide)

/-! ## C4: phase transitions -/

/-- Is this event a worker "loading" status event? -/
def isLoadingEvt : Event → Bool
  | Event.worker e => decide (parseStatus e.status = Status.loading)
  | _ => false

/-- C4 counterexample: a "loading" status event arriving after "ready" sets the
phase back to "loading", so the phase is not terminal once ready. -/
theorem ready_reverts_cex :
    (run initialState
        [Event.worker (statusMsg "ready"), Event.worker (statusMsg "loading")]).1.status =
      some "loading" ∧
    (some "loading" : Option String) ≠ some "ready" := ⟨by decide, by decide⟩

theorem step_status_ready (s : AppState) (ev : Event)
    (hs : s.status = some "ready") (hnl : isLoadingEvt ev = false) :
    (step s ev).1.status = some "ready" := by
  cases ev with
  | worker e =>
      rw [show (step s (Event.worker e)).1.status = (workerStep e s).1.status from rfl,
        workerStep_fst_status]
      have hnl' : parseStatus e.status ≠ Status.loading := by
        simp only [isLoadingEvt, decide_eq_false_iff_not] at hnl
        exact hnl
      cases hp : parseStatus e.status with
      | loading => exact absurd hp hnl'
      | ready => rw [onMessageReceived_ready e s hp]
      | initiate =>
          rw [onMessageReceived_status e s (by rw [hp]; decide) (by rw [hp]; decide)]
          exact hs
      | progress =>
          rw [onMessageReceived_status e s (by rw [hp]; decide) (by rw [hp]; decide)]
          exact hs
      | done =>
          rw [onMessageReceived_status e s (by rw [hp]; decide) (by rw [hp]; decide)]
          exact hs
      | start =>
          rw [onMessageReceived_status e s (by rw [hp]; decide) (by rw [hp]; decide)]
          exact hs
      | update =>
          rw [onMessageReceived_status e s (by rw [hp]; decide) (by rw [hp]; decide)]
          exact hs
      | complete =>
          rw [onMessageReceived_status e s (by rw [hp]; decide) (by rw [hp]; decide)]
          exact hs
      | error =>
          rw [onMessageReceived_status e s (by rw [hp]; decide) (by rw [hp]; decide)]
          exact hs
      | unknown =>
          rw [onMessageReceived_status e s (by rw [hp]; decide) (by rw [hp]; decide)]
          exact hs
  | submitInput =>
      simp only [step]
      split
      · show (runEffect (onEnter s.input s)).1.status = some "ready"
        rw [runEffect_fst_status]
        exact hs
      · exact hs
  | clickExample msg =>
      simp only [step]
      split
      · show (runEffect (onEnter msg s)).1.status = some "ready"
        rw [runEffect_fst_status]
        exact hs
      · exact hs
  | clickReset =>
      show (runEffect { s with messages := [] }).1.status = some "ready"
      rw [runEffect_fst_status]
      exact hs
  | clickLoad =>
      simp only [step]
      split
      · next hc =>
          rw [hs] at hc
          exact Option.noConfusion hc.1
      · exact hs
  | clickInterrupt =>
      simp only [step]
      split <;> exact hs

/-- C4 amended: the phase follows the most recent loading/ready status event,
so once the phase is "ready" it remains "ready" across any events among which
no worker "loading" event occurs; a late "loading" event (see the
counterexample) does revert it. -/
theorem phase_stable_without_late_loading (es : List Event) :
    ∀ s : AppState, s.status = some "ready" →
      (∀ ev ∈ es, isLoadingEvt ev = false) →
      (run s es).1.status = some "ready" := by
  induction es with
  | nil => intro s hs _; exact hs
  | cons ev evs ih =>
      intro s hs hall
      show (run (step s ev).1 evs).1.status = some "ready"
      exact ih _ (step_status_ready s ev hs (hall ev (by simp)))
        (fun v hv => hall v (by simp [hv]))

/-- Concrete instance: after "ready", a full generation cycle and another
"ready" keep the phase at "ready". -/
theorem phase_stable_check :
    (run { initialState with status := some "ready" }
        [Event.worker (statusMsg "start"), Event.worker (updMsg "x" "thinking"),
         Event.worker (statusMsg "complete"), Event.worker (statusMsg "ready")]).1.status =
      some "ready" :=
  phase_stable_without_late_loading _ { initialState with status := some "ready" } rfl
    (by decide)

/-! ## C3: the reset action -/

/-- C3 counterexample: the reset click clears the transcript but leaves both
metrics (tps, numTokens) at their previous values. -/
theorem reset_keeps_metrics_cex :
    (step { initialState with
        status := some "ready",
        messages := [{ role := Role.user, content := "q", answerIndex := none },
                     { role := Role.assistant, content := "a", answerIndex := some 0 }],
        tps := some 5, numTokens := some 7 } Event.clickReset).1.messages = [] ∧
    (step { initialState with
        status := some "ready",
        messages := [{ role := Role.user, content := "q", answerIndex := none },
                     { role := Role.assistant, content := "a", answerIndex := some 0 }],
        tps := some 5, numTokens := some 7 } Event.clickReset).1.tps = some 5 ∧
    (step { initialState with
        status := some "ready",
        messages := [{ role := Role.user, content := "q", answerIndex := none },
                     { role := Role.assistant, content := "a", answerIndex := some 0 }],
        tps := some 5, numTokens := some 7 } Event.clickReset).1.numTokens = some 7 := by
  exact ⟨by decide, by decide, by decide⟩

/-- C3 amended: the reset click posts the "reset" command and clears the
transcript to empty, from any prior state; every other state cell — in
particular tps and numTokens — keeps its previous value. -/
theorem reset_clears_transcript_only (s : AppState) :
    step s Event.clickReset = ({ s with messages := [] }, [Cmd.reset]) := by
  have h : runEffect { s with messages := [] } = ({ s with messages := [] }, []) := by
    unfold runEffect
    rw [if_pos]
    rfl
  show ((runEffect { s with messages := [] }).1,
      Cmd.reset :: (runEffect { s with messages := [] }).2) = _
  rw [h]

/-! ## C9: submitting a user turn -/

/-- C9 counterexample: onEnter applied to the empty string appends an empty
user turn; the function itself does not reject empty text. -/
theorem empty_submit_appends_cex :
    (onEnter "" initialState).messages =
      [{ role := Role.user, content := "", answerIndex := none }] ∧
    (onEnter "" initialState).messages ≠ [] := ⟨rfl, by decide⟩

/-- C9 amended: onEnter appends the {user, text} turn, clears the tps metric,
sets the running flag, and clears the input box unconditionally — even for
empty text. The empty-input rejection lives in the callers: the submit path is
a no-op when the input box is empty. -/
theorem append_user_turn (s : AppState) (text : String) :
    (onEnter text s).messages =
      s.messages ++ [{ role := Role.user, content := text, answerIndex := none }] ∧
    (onEnter text s).tps = none ∧
    (onEnter text s).isRunning = true ∧
    (onEnter text s).input = "" ∧
    (s.input = "" → step s Event.submitInput = (s, [])) := by
  refine ⟨rfl, rfl, rfl, rfl, fun hin => ?_⟩
  simp only [step]
  rw [if_neg]
  rintro ⟨hlen, _⟩
  rw [hin] at hlen
  exact absurd hlen (by decide)

/-- Concrete instance: the guarded submit path with an empty input box is a
no-op, while onEnter itself appends the turn. -/
theorem append_user_turn_check :
    step { initialState with status := some "ready" } Event.submitInput =
      ({ initialState with status := some "ready" }, []) ∧
    (onEnter "hello" initialState).messages =
      [{ role := Role.user, content := "hello", answerIndex := none }] := by
  constructor
  · exact (append_user_turn { initialState with status := some "ready" } "x").2.2.2.2 rfl
  · exact (append_user_turn initialState "hello").1

/-! ## C5: the generate trigger -/

theorem run_snd_cons (s : AppState) (ev : Event) (evs : List Event) :
    (run s (ev :: evs)).2 = (step s ev).2 ++ (run (step s ev).1 evs).2 := rfl

theorem genCount_append (a b : List Cmd) :
    genCount (a ++ b) = genCount a + genCount b := by
  unfold genCount
  rw [List.filter_append, List.length_append]

theorem runEffect_empty_messages (s : AppState) (h : s.messages = []) :
    runEffect s = (s, []) := by
  unfold runEffect
  rw [if_pos (by rw [h]; rfl)]

theorem runEffect_fire (s : AppState) (ms : List ChatMessage) (t : ChatMessage)
    (hm : s.messages = ms ++ [t]) (ht : t.role = Role.user) :
    runEffect s = ({ s with tps := none }, [Cmd.generate s.messages]) := by
  have h1 : ¬((s.messages.filter (fun m => decide (m.role = Role.user))).length = 0) := by
    intro hc
    have hmem : t ∈ s.messages.filter (fun m => decide (m.role = Role.user)) := by
      rw [List.mem_filter]
      exact ⟨by rw [hm]; simp, by simp [ht]⟩
    rw [List.length_eq_zero] at hc
    rw [hc] at hmem
    exact List.not_mem_nil t hmem
  have h2 : ¬(lastIsAssistant s.messages = true) := by
    rw [hm, lastIsAssistant_concat, ht]
    decide
  unfold runEffect
  rw [if_neg h1, if_neg h2]

theorem submit_fires (s : AppState) (hrun : s.isRunning = false) (hin : 0 < s.input.length) :
    step s Event.submitInput =
      ({ onEnter s.input s with tps := none },
        [Cmd.generate (s.messages ++
          [{ role := Role.user, content := s.input, answerIndex := none }])]) := by
  simp only [step]
  rw [if_pos ⟨hin, hrun⟩]
  show runEffect (onEnter s.input s) = _
  rw [runEffect_fire (onEnter s.input s) s.messages
    { role := Role.user, content := s.input, answerIndex := none } rfl rfl]
  rfl

theorem gen_mem_runEffect_full (s1 : AppState) (ms : List ChatMessage)
    (h : Cmd.generate ms ∈ (runEffect s1).2) :
    ms = (runEffect s1).1.messages ∧
    (∃ m, ms.getLast? = some m ∧ m.role = Role.user) ∧
    genCount (runEffect s1).2 = 1 := by
  obtain ⟨h1, h2, h3, h4, h5⟩ := runEffect_gen_mem s1 ms h
  subst h1
  refine ⟨by rw [runEffect_fst_messages], ?_, by rw [h2]; rfl⟩
  have hne : s1.messages ≠ [] := by
    intro hc
    rw [hc] at h5
    exact h5 rfl
  obtain ⟨m, hl⟩ := Option.isSome_iff_exists.mp (List.getLast?_isSome.mpr hne)
  exact ⟨m, hl, lastIsAssistant_false_user _ m hl h4⟩

theorem onMessageReceived_messages (e : MessageData) (s : AppState)
    (h1 : parseStatus e.status ≠ Status.start)
    (h2 : parseStatus e.status ≠ Status.update) :
    (onMessageReceived e s).messages = s.messages := by
  unfold onMessageReceived
  cases hp : parseStatus e.status <;>
    first
      | rfl
      | (cases e.data <;> rfl)
      | exact absurd hp h1
      | exact absurd hp h2

theorem workerStep_last_assistant (e : MessageData) (s : AppState)
    (ms : List ChatMessage) (t : ChatMessage)
    (hm : s.messages = ms ++ [t]) (ht : t.role = Role.assistant) :
    (workerStep e s).2 = [] ∧
    ∃ ms2 t2, (workerStep e s).1.messages = ms2 ++ [t2] ∧ t2.role = Role.assistant := by
  cases hp : parseStatus e.status with
  | start =>
      rw [workerStep_start e s hp,
        runEffect_last_assistant
          { s with messages :=
              s.messages ++ [{ role := Role.assistant, content := "", answerIndex := none }] }
          s.messages { role := Role.assistant, content := "", answerIndex := none } rfl rfl]
      exact ⟨rfl, s.messages, { role := Role.assistant, content := "", answerIndex := none },
        rfl, rfl⟩
  | update =>
      rw [workerStep_update e s hp ms t hm ht]
      exact ⟨rfl, ms, applyUpdateTurn t e.output e.state, rfl,
        by rw [applyUpdateTurn_role]; exact ht⟩
  | complete =>
      rw [workerStep_complete e s hp ms t hm ht]
      exact ⟨rfl, ms, t, hm, ht⟩
  | loading =>
      rw [workerStep_skip e s (by rw [hp]; decide) (by rw [hp]; decide) (by rw [hp]; decide)]
      exact ⟨rfl, ms, t,
        by
          rw [onMessageReceived_messages e s (by rw [hp]; decide) (by rw [hp]; decide)]
          exact hm,
        ht⟩
  | initiate =>
      rw [workerStep_skip e s (by rw [hp]; decide) (by rw [hp]; decide) (by rw [hp]; decide)]
      exact ⟨rfl, ms, t,
        by
          rw [onMessageReceived_messages e s (by rw [hp]; decide) (by rw [hp]; decide)]
          exact hm,
        ht⟩
  | progress =>
      rw [workerStep_skip e s (by rw [hp]; decide) (by rw [hp]; decide) (by rw [hp]; decide)]
      exact ⟨rfl, ms, t,
        by
          rw [onMessageReceived_messages e s (by rw [hp]; decide) (by rw [hp]; decide)]
          exact hm,
        ht⟩
  | done =>
      rw [workerStep_skip e s (by rw [hp]; decide) (by rw [hp]; decide) (by rw [hp]; decide)]
      exact ⟨rfl, ms, t,
        by
          rw [onMessageReceived_messages e s (by rw [hp]; decide) (by rw [hp]; decide)]
          exact hm,
        ht⟩
  | ready =>
      rw [workerStep_skip e s (by rw [hp]; decide) (by rw [hp]; decide) (by rw [hp]; decide)]
      exact ⟨rfl, ms, t,
        by
          rw [onMessageReceived_messages e s (by rw [hp]; decide) (by rw [hp]; decide)]
          exact hm,
        ht⟩
  | error =>
      rw [workerStep_skip e s (by rw [hp]; decide) (by rw [hp]; decide) (by rw [hp]; decide)]
      exact ⟨rfl, ms, t,
        by
          rw [onMessageReceived_messages e s (by rw [hp]; decide) (by rw [hp]; decide)]
          exact hm,
        ht⟩
  | unknown =>
      rw [workerStep_skip e s (by rw [hp]; decide) (by rw [hp]; decide) (by rw [hp]; decide)]
      exact ⟨rfl, ms, t,
        by
          rw [onMessageReceived_messages e s (by rw [hp]; decide) (by rw [hp]; decide)]
          exact hm,
        ht⟩

/-- While the transcript ends in an assistant turn, a sequence of worker events
emits no generate command at all. -/
theorem run_worker_assistant (es : List Event) :
    ∀ (s : AppState) (ms : List ChatMessage) (t : ChatMessage),
      s.messages = ms ++ [t] → t.role = Role.assistant →
      (∀ ev ∈ es, ∃ e, ev = Event.worker e) →
      genCount (run s es).2 = 0 := by
  induction es with
  | nil => intro s ms t _ _ _; rfl
  | cons ev evs ih =>
      intro s ms t hm ht hall
      obtain ⟨e, rfl⟩ := hall ev (by simp)
      obtain ⟨hcmds, ms2, t2, hm2, ht2⟩ := workerStep_last_assistant e s ms t hm ht
      have h1 : genCount (step s (Event.worker e)).2 = 0 := by
        rw [show step s (Event.worker e) = workerStep e s from rfl, hcmds]
        rfl
      have h2 : genCount (run (step s (Event.worker e)).1 evs).2 = 0 :=
        ih _ ms2 t2 hm2 ht2 (fun v hv => hall v (by simp [hv]))
      rw [run_snd_cons, genCount_append, h1, h2]

/-- C5: the generate trigger. (a) Any "generate" emitted at a step carries
exactly the full post-step transcript, which ends in a user turn and is
non-empty; at most one generate is emitted per step. (b) A user submission
from an idle state with non-empty input emits exactly one generate carrying
the transcript extended with the new user turn, and sets Running. (c)
Submitting while Running is a complete no-op. (d) Once the last turn is an
assistant turn, no sequence of worker events emits any generate (no refire
after the assistant turn has been appended). (e) Over a full conforming cycle
submit → start → worker events → complete exactly one generate is emitted. -/
theorem generate_trigger_spec :
    (∀ (s : AppState) (ev : Event) (ms : List ChatMessage),
      Cmd.generate ms ∈ (step s ev).2 →
      ms = (step s ev).1.messages ∧
      (∃ m, ms.getLast? = some m ∧ m.role = Role.user) ∧
      genCount (step s ev).2 = 1) ∧
    (∀ s : AppState, s.isRunning = false → 0 < s.input.length →
      (step s Event.submitInput).2 =
        [Cmd.generate (s.messages ++
          [{ role := Role.user, content := s.input, answerIndex := none }])] ∧
      (step s Event.submitInput).1.messages =
        s.messages ++ [{ role := Role.user, content := s.input, answerIndex := none }] ∧
      (step s Event.submitInput).1.isRunning = true) ∧
    (∀ s : AppState, s.isRunning = true → step s Event.submitInput = (s, [])) ∧
    (∀ (es : List Event) (s : AppState) (ms : List ChatMessage) (t : ChatMessage),
      s.messages = ms ++ [t] → t.role = Role.assistant →
      (∀ ev ∈ es, ∃ e, ev = Event.worker e) →
      genCount (run s es).2 = 0) ∧
    (∀ (s : AppState) (us : List MessageData), s.isRunning = false → 0 < s.input.length →
      genCount (run s (Event.submitInput :: Event.worker (statusMsg "start") ::
        us.map Event.worker ++ [Event.worker (statusMsg "complete")])).2 = 1) := by
  refine ⟨?_, ?_, ?_, ?_, ?_⟩
  · -- (a) soundness of every emission
    intro s ev ms hmem
    cases ev with
    | worker e =>
        rw [show step s (Event.worker e) = workerStep e s from rfl] at hmem ⊢
        simp only [workerStep] at hmem ⊢
        by_cases hc : (parseStatus e.status = Status.start ∨
            parseStatus e.status = Status.update ∨
            (onMessageReceived e s).isRunning ≠ s.isRunning)
        · rw [if_pos hc] at hmem ⊢
          exact gen_mem_runEffect_full _ ms hmem
        · rw [if_neg hc] at hmem
          simp at hmem
    | submitInput =>
        simp only [step] at hmem ⊢
        by_cases hc : (0 < s.input.length ∧ s.isRunning = false)
        · rw [if_pos hc] at hmem ⊢
          exact gen_mem_runEffect_full (onEnter s.input s) ms hmem
        · rw [if_neg hc] at hmem
          simp at hmem
    | clickExample msg =>
        simp only [step] at hmem ⊢
        by_cases hc : (s.status = some "ready" ∧ s.messages = [])
        · rw [if_pos hc] at hmem ⊢
          exact gen_mem_runEffect_full (onEnter msg s) ms hmem
        · rw [if_neg hc] at hmem
          simp at hmem
    | clickReset =>
        have hstep : step s Event.clickReset = ({ s with messages := [] }, [Cmd.reset]) := by
          show ((runEffect { s with messages := [] }).1,
            Cmd.reset :: (runEffect { s with messages := [] }).2) = _
          rw [runEffect_empty_messages { s with messages := [] } rfl]
        rw [hstep] at hmem
        simp at hmem
    | clickLoad =>
        simp only [step] at hmem
        split at hmem <;> simp at hmem
    | clickInterrupt =>
        simp only [step] at hmem
        split at hmem <;> simp at hmem
  · -- (b) a submit from idle fires once with the new user turn
    intro s hrun hin
    have h := submit_fires s hrun hin
    exact ⟨by rw [h], by rw [h]; rfl, by rw [h]; rfl⟩
  · -- (c) submit while running is a no-op
    intro s hrun
    simp only [step]
    rw [if_neg]
    rintro ⟨_, hc⟩
    rw [hrun] at hc
    exact Bool.noConfusion hc
  · -- (d) no refire while the last turn is an assistant turn
    exact fun es s ms t hm ht hall => run_worker_assistant es s ms t hm ht hall
  · -- (e) one generate per full cycle
    intro s us hrun hin
    have hs2 : (step s Event.submitInput).2 =
        [Cmd.generate (s.messages ++
          [{ role := Role.user, content := s.input, answerIndex := none }])] := by
      rw [submit_fires s hrun hin]
    have hs1 : (step s Event.submitInput).1 = { onEnter s.input s with tps := none } := by
      rw [submit_fires s hrun hin]
    have hstart : step { onEnter s.input s with tps := none }
        (Event.worker (statusMsg "start")) =
        ({ { onEnter s.input s with tps := none } with messages :=
            ({ onEnter s.input s with tps := none }).messages ++
              [{ role := Role.assistant, content := "", answerIndex := none }] }, []) := by
      rw [show step { onEnter s.input s with tps := none } (Event.worker (statusMsg "start")) =
          workerStep (statusMsg "start") { onEnter s.input s with tps := none } from rfl,
        workerStep_start (statusMsg "start") { onEnter s.input s with tps := none } rfl]
      exact runEffect_last_assistant _ ({ onEnter s.input s with tps := none }).messages _
        rfl rfl
    have htail : genCount (run ({ { onEnter s.input s with tps := none } with messages :=
        ({ onEnter s.input s with tps := none }).messages ++
          [{ role := Role.assistant, content := "", answerIndex := none }] })
        (us.map Event.worker ++ [Event.worker (statusMsg "complete")])).2 = 0 := by
      apply run_worker_assistant _ _ ({ onEnter s.input s with tps := none }).messages
        { role := Role.assistant, content := "", answerIndex := none } rfl rfl
      intro ev hev
      rcases List.mem_append.mp hev with h | h
      · obtain ⟨u, _, rfl⟩ := List.mem_map.mp h
        exact ⟨u, rfl⟩
      · rw [List.mem_singleton] at h
        subst h
        exact ⟨statusMsg "complete", rfl⟩
    have hstart2 : (step { onEnter s.input s with tps := none }
        (Event.worker (statusMsg "start"))).2 = [] := by
      rw [hstart]
    have hstart1 : (step { onEnter s.input s with tps := none }
        (Event.worker (statusMsg "start"))).1 =
        { { onEnter s.input s with tps := none } with messages :=
            ({ onEnter s.input s with tps := none }).messages ++
              [{ role := Role.assistant, content := "", answerIndex := none }] } := by
      rw [hstart]
    rw [List.cons_append, List.cons_append]
    rw [run_snd_cons, genCount_append, hs2, hs1, run_snd_cons, genCount_append,
      hstart2, hstart1, htail]
    rfl

/-- Concrete instance: from a ready idle state with input "hello", the cycle
submit → start → two updates → complete posts exactly one generate command. -/
theorem generate_trigger_check :
    genCount (run { initialState with status := some "ready", input := "hello" }
        (Event.submitInput :: Event.worker (statusMsg "start") ::
          [updMsg "Hi" "thinking", updMsg " there" "answering"].map Event.worker ++
          [Event.worker (statusMsg "complete")])).2 = 1 :=
  generate_trigger_spec.2.2.2.2 { initialState with status := some "ready", input := "hello" }
    [updMsg "Hi" "thinking", updMsg " there" "answering"] rfl (by decide)

/-! ## C6: byte-size formatting -/

/-- C6: formatBytes selects the binary 1024-based unit from B through TB via
the floor base-1024 logarithm (forced to 0 for zero bytes), rounds the scaled
value to two decimals and strips unnecessary trailing precision; and when the
download total is absent (NaN), the Progress line omits the size suffix
entirely instead of rendering "NaN". -/
theorem format_size_spec :
    formatBytes 0 = "0B" ∧
    formatBytes 1024 = "1kB" ∧
    formatBytes 1536 = "1.5kB" ∧
    formatBytes 1 = "1B" ∧
    formatBytes 1023 = "1023B" ∧
    formatBytes 1792 = "1.75kB" ∧
    formatBytes (1024 ^ 2) = "1MB" ∧
    formatBytes (1024 ^ 3) = "1GB" ∧
    formatBytes (1024 ^ 4) = "1TB" ∧
    (∀ (text : String) (pct : ℚ), progressLabel text pct none =
      text ++ " (" ++ toFixed2 pct ++ "%)") := by
  refine ⟨by decide, by decide, by decide, by decide, by decide, by decide,
    by decide, by decide, by decide, ?_⟩
  intro text pct
  show text ++ " (" ++ toFixed2 pct ++ "%" ++ "" ++ ")" = _
  rw [String.append_empty, String.append_assoc]
  exact congrArg (fun z => text ++ " (" ++ toFixed2 pct ++ z)
    (by decide : "%" ++ ")" = "%)")
